import Mathlib

/-!
Shallow embedding of the MirrorKey secret-broker core: the gsecret data
model, the per-token secret cache (`cache_controller.py`), the cache stage
(`stages/gsecret/cache/main.py`), the chain runtime (`core/chain/chain.py`
and `core/chain/controller.py`), the generator stage's charset assembly
(`stages/gsecret/generator/main.py`), the bws_read stage's sync callback
(`stages/gsecret/bws_read/main.py`), and the HTTP dependency helpers
(`apis/gsecret/api.py`).  Python dicts are modelled as association lists
(insertion ordered, unique keys under the write discipline used by the
source), wall-clock instants as natural numbers, and mutation as explicit
state passing.
-/

namespace MirrorKey

/-! ### Data model (`interfaces/gsecret/interface.py`) -/

/-- `RateLimit` record attached to secrets returned by upstream stages. -/
structure RateLimit where
  limit : Int
  remaining : Int
  reset : Nat
  api_relation : String
deriving DecidableEq

/-- `Secret{key_id, key, secret, rate_limit}`; the value is uninterpreted
by the cache, modelled as a string. -/
structure Secret where
  key_id : String
  key : String
  secret : String
  rate_limit : Option RateLimit := none
deriving DecidableEq

/-- `GsecretFailure{reason, code}`. -/
structure GsecretFailure where
  reason : String
  code : Int
deriving DecidableEq

/-! ### Association-list model of Python dicts -/

/-- Lookup of the (unique) binding for `k`: `d.get(k)`. -/
def alookup {β : Type} : List (String × β) → String → Option β
  | [], _ => none
  | (k', v) :: rest, k => if k' = k then some v else alookup rest k

/-- In-place update of the binding for `k` (dict entry mutation). -/
def aupdate {β : Type} : List (String × β) → String → (β → β) → List (String × β)
  | [], _, _ => []
  | (k', v) :: rest, k, f => (k', if k' = k then f v else v) :: aupdate rest k f

/-- Deletion of the binding for `k`: `del d[k]` (no-op when absent). -/
def aerase {β : Type} : List (String × β) → String → List (String × β)
  | [], _ => []
  | (k', v) :: rest, k =>
    if k' = k then aerase rest k else (k', v) :: aerase rest k

/-- The keys of the dict, in insertion order. -/
def akeys {β : Type} (l : List (String × β)) : List String :=
  l.map Prod.fst

/-! ### `CacheEntry` (`cache_controller.py`) -/

/-- A cached secret with metadata, as in `CacheEntry.__init__`. -/
structure CacheEntry where
  secret : Secret
  cached_at : Nat
  access_count : Nat
  last_accessed : Nat
deriving DecidableEq

namespace CacheEntry

/-- `CacheEntry(secret)` constructed at instant `now`. -/
def init (s : Secret) (now : Nat) : CacheEntry :=
  { secret := s, cached_at := now, access_count := 0, last_accessed := now }

/-- `access()`: bump `access_count`, stamp `last_accessed`, return the secret. -/
def access (e : CacheEntry) (now : Nat) : CacheEntry × Secret :=
  ({ e with access_count := e.access_count + 1, last_accessed := now }, e.secret)

/-- `update(secret)`: replace the secret and re-stamp `cached_at`. -/
def update (e : CacheEntry) (s : Secret) (now : Nat) : CacheEntry :=
  { e with secret := s, cached_at := now }

/-- `is_expired(ttl_seconds)`: `ttl_seconds <= 0` disables expiry, otherwise
the entry is expired when its age strictly exceeds the TTL. -/
def expired (e : CacheEntry) (ttl : Int) (now : Nat) : Bool :=
  if ttl ≤ 0 then false
  else decide ((now : Int) - (e.cached_at : Int) > ttl)

end CacheEntry

/-! ### `TokenCache` (`cache_controller.py`) -/

/-- The two mappings of a per-token cache. -/
structure TokenCache where
  id_cache : List (String × CacheEntry)
  key_cache : List (String × CacheEntry)
deriving DecidableEq

namespace TokenCache

def empty : TokenCache := ⟨[], []⟩

/-- `ids` property: all cached secret IDs. -/
def ids (c : TokenCache) : List String := akeys c.id_cache

/-- `keys` property: all cached secret keys. -/
def keyNames (c : TokenCache) : List String := akeys c.key_cache

/-- `remove_by_id`. -/
def remove_by_id (c : TokenCache) (key_id : String) : TokenCache :=
  { c with id_cache := aerase c.id_cache key_id }

/-- `remove_by_key`. -/
def remove_by_key (c : TokenCache) (key : String) : TokenCache :=
  { c with key_cache := aerase c.key_cache key }

/-- `get_by_id`: on a live hit, record the access and return the secret;
on an expired hit, evict the entry and its cross-mapping entry. -/
def get_by_id (c : TokenCache) (key_id : String) (ttl : Int) (now : Nat) :
    TokenCache × Option Secret :=
  match alookup c.id_cache key_id with
  | some e =>
    if e.expired ttl now then
      ({ id_cache := aerase c.id_cache key_id,
         key_cache := aerase c.key_cache e.secret.key }, none)
    else
      ({ c with id_cache := aupdate c.id_cache key_id (fun e' => (e'.access now).1) },
       some e.secret)
  | none => (c, none)

/-- `get_by_key`, symmetric to `get_by_id`. -/
def get_by_key (c : TokenCache) (key : String) (ttl : Int) (now : Nat) :
    TokenCache × Option Secret :=
  match alookup c.key_cache key with
  | some e =>
    if e.expired ttl now then
      ({ key_cache := aerase c.key_cache key,
         id_cache := aerase c.id_cache e.secret.key_id }, none)
    else
      ({ c with key_cache := aupdate c.key_cache key (fun e' => (e'.access now).1) },
       some e.secret)
  | none => (c, none)

/-- `update_by_id`: update in place when present, else insert a fresh entry. -/
def update_by_id (c : TokenCache) (s : Secret) (key_id : String) (now : Nat) :
    TokenCache :=
  match alookup c.id_cache key_id with
  | some _ => { c with id_cache := aupdate c.id_cache key_id (fun e => e.update s now) }
  | none => { c with id_cache := c.id_cache ++ [(key_id, CacheEntry.init s now)] }

/-- `update_by_key`: update in place when present, else insert a fresh entry. -/
def update_by_key (c : TokenCache) (s : Secret) (key : String) (now : Nat) :
    TokenCache :=
  match alookup c.key_cache key with
  | some _ => { c with key_cache := aupdate c.key_cache key (fun e => e.update s now) }
  | none => { c with key_cache := c.key_cache ++ [(key, CacheEntry.init s now)] }

/-- `invalidate_by_id`: drop the id entry and the key entry for its secret's key. -/
def invalidate_by_id (c : TokenCache) (key_id : String) : TokenCache :=
  match alookup c.id_cache key_id with
  | some e =>
    { id_cache := aerase c.id_cache key_id,
      key_cache := aerase c.key_cache e.secret.key }
  | none => c

/-- `invalidate_by_key`: drop the key entry and the id entry for its secret's id. -/
def invalidate_by_key (c : TokenCache) (key : String) : TokenCache :=
  match alookup c.key_cache key with
  | some e =>
    { key_cache := aerase c.key_cache key,
      id_cache := aerase c.id_cache e.secret.key_id }
  | none => c

/-- `clear`. -/
def clear (_c : TokenCache) : TokenCache := empty

end TokenCache

/-! ### Chain runtime (`core/chain/chain.py`, `core/chain/controller.py`)

Stage objects are modelled by an arbitrary type `α`; Python object identity
(`is`) becomes equality of stage identifiers, so two distinct objects carry
distinct identifiers and re-adding the same object re-adds the same
identifier. -/

/-- `enumerate`-style search used by `Chain.get_stage_index`. -/
def findIndexFrom {α : Type} [DecidableEq α] : List α → α → Nat → Option Nat
  | [], _, _ => none
  | x :: rest, s, n => if x = s then some n else findIndexFrom rest s (n + 1)

/-- `Chain{name, stage_class, stages}`; `stage_class` is a class identifier
used by `ChainController.add_chain`'s conformance check. -/
structure Chain (α : Type) where
  name : String
  stage_class : Nat := 0
  stages : List α

namespace Chain

/-- `add_stage` appends (the `isinstance` guard is type-level here). -/
def add_stage {α : Type} (c : Chain α) (s : α) : Chain α :=
  { c with stages := c.stages ++ [s] }

/-- `get_stages(index)`: list indexing. -/
def get_stages {α : Type} (c : Chain α) (i : Nat) : Option α :=
  c.stages.get? i

/-- `get_stage_index(stage)`: index of the first stage identical (`is`) to
the argument via `enumerate`, `none` when absent (the source raises
`ValueError`). -/
def get_stage_index {α : Type} [DecidableEq α] (c : Chain α) (s : α) : Option Nat :=
  MirrorKey.findIndexFrom c.stages s 0

end Chain

/-- `ForwardChainExecutor{chain, current_index}`. -/
structure ForwardChainExecutor (α : Type) where
  chain : Chain α
  current_index : Int

namespace ForwardChainExecutor

/-- `ForwardChainExecutor(chain)` with the default starting index 0. -/
def make {α : Type} (c : Chain α) : ForwardChainExecutor α := ⟨c, 0⟩

/-- `copy()`: a new executor with the same chain and index. -/
def copy {α : Type} (e : ForwardChainExecutor α) : ForwardChainExecutor α :=
  ⟨e.chain, e.current_index⟩

/-- `next()`: the stage at `current_index` and the post-increment cursor,
or `none` (exhausted) leaving the cursor in place. -/
def next {α : Type} (e : ForwardChainExecutor α) :
    Option α × ForwardChainExecutor α :=
  if 0 ≤ e.current_index ∧ e.current_index < (e.chain.stages.length : Int) then
    (e.chain.get_stages e.current_index.toNat,
     { e with current_index := e.current_index + 1 })
  else (none, e)

end ForwardChainExecutor

/-- `ReverseChainExecutor{chain, current_index}`. -/
structure ReverseChainExecutor (α : Type) where
  chain : Chain α
  current_index : Int

namespace ReverseChainExecutor

/-- The constructor: a `current_index` argument of `-1` (also the default)
is replaced by `len(chain) - 1`. -/
def make {α : Type} (c : Chain α) (idx : Int) : ReverseChainExecutor α :=
  ⟨c, if idx = -1 then (c.stages.length : Int) - 1 else idx⟩

/-- `copy()` re-enters the constructor with the stored index. -/
def copy {α : Type} (e : ReverseChainExecutor α) : ReverseChainExecutor α :=
  make e.chain e.current_index

/-- `next()`: the stage at `current_index` and the post-decrement cursor,
or `none` (exhausted) leaving the cursor in place. -/
def next {α : Type} (e : ReverseChainExecutor α) :
    Option α × ReverseChainExecutor α :=
  if 0 ≤ e.current_index ∧ e.current_index < (e.chain.stages.length : Int) then
    (e.chain.get_stages e.current_index.toNat,
     { e with current_index := e.current_index - 1 })
  else (none, e)

end ReverseChainExecutor

/-- Dict assignment `d[k] = v`: overwrite in place or append. -/
def ainsert {β : Type} (l : List (String × β)) (k : String) (v : β) :
    List (String × β) :=
  match alookup l k with
  | some _ => aupdate l k fun _ => v
  | none => l ++ [(k, v)]

/-- The argument passed to `ChainController.add_chain`: either a `Chain` or
some non-`Chain` object (failing the `isinstance` check). -/
inductive ChainArg (α : Type) where
  | chain (c : Chain α)
  | notChain

/-- `ChainController{stage_class, chains}`. -/
structure ChainController (α : Type) where
  stage_class : Nat
  chains : List (String × Chain α)

namespace ChainController

/-- `add_chain`: `TypeError` when the argument is not a `Chain` or its
`stage_class` does not conform (`issubclass`, modelled by the relation
`sub`); otherwise store the chain under its name, replacing any previous
binding. -/
def add_chain {α : Type} (sub : Nat → Nat → Bool) (ctrl : ChainController α)
    (arg : ChainArg α) : Except String (ChainController α) :=
  match arg with
  | .notChain => .error "chain must be an instance of Chain."
  | .chain c =>
    if sub c.stage_class ctrl.stage_class then
      .ok { ctrl with chains := ainsert ctrl.chains c.name c }
    else
      .error "Chain's state_class must be a subclass of the executor_class."

/-- `get_executor(chain)`: a fresh forward executor at index 0, or `none`. -/
def get_executor {α : Type} (ctrl : ChainController α) (name : String) :
    Option (ForwardChainExecutor α) :=
  (alookup ctrl.chains name).map fun c => ⟨c, 0⟩

end ChainController

/-! ### Cache stage (`stages/gsecret/cache/main.py`)

The downstream part of the chain is summarised by the result the next
executor would return: `none` models an exhausted `next.next()`, and
`some r` models a downstream call returning `r`. -/

/-- `CacheConfig`. -/
structure CacheConfig where
  ttl_seconds : Int := 300
  invalidate_on_upstream_error : Bool := true

/-- Result of asking the rest of the forward chain, `none` = no next stage. -/
abbrev Downstream := Option (Secret ⊕ GsecretFailure)

/-- `CacheGSecretExecutor.get_secret_id` acting on the token's cache. -/
def cacheGetSecretId (cfg : CacheConfig) (cache : TokenCache) (key_id : String)
    (downstream : Downstream) (now : Nat) : TokenCache × (Secret ⊕ GsecretFailure) :=
  let res := cache.get_by_id key_id cfg.ttl_seconds now
  match res.2 with
  | some s => (res.1, Sum.inl s)
  | none =>
    match downstream with
    | some (Sum.inl s) => (res.1.update_by_key s s.key now, Sum.inl s)
    | some (Sum.inr f) =>
      if f.code = 404 then (res.1.invalidate_by_id key_id, Sum.inr f)
      else if cfg.invalidate_on_upstream_error then
        (res.1.invalidate_by_id key_id, Sum.inr f)
      else (res.1, Sum.inr f)
    | none => (res.1, Sum.inr ⟨"Secret not found", 404⟩)

/-- `CacheGSecretExecutor.get_secret_key` acting on the token's cache. -/
def cacheGetSecretKey (cfg : CacheConfig) (cache : TokenCache) (key : String)
    (downstream : Downstream) (now : Nat) : TokenCache × (Secret ⊕ GsecretFailure) :=
  let res := cache.get_by_key key cfg.ttl_seconds now
  match res.2 with
  | some s => (res.1, Sum.inl s)
  | none =>
    match downstream with
    | some (Sum.inl s) => (res.1.update_by_key s s.key now, Sum.inl s)
    | some (Sum.inr f) =>
      if f.code = 404 then (res.1.invalidate_by_key key, Sum.inr f)
      else if cfg.invalidate_on_upstream_error then
        (res.1.invalidate_by_key key, Sum.inr f)
      else (res.1, Sum.inr f)
    | none => (res.1, Sum.inr ⟨"Secret not found", 404⟩)

/-- `CacheGSecretExecutor.write_secret` acting on the token's cache. -/
def cacheWriteSecret (cache : TokenCache) (downstream : Downstream) (now : Nat) :
    TokenCache × (Secret ⊕ GsecretFailure) :=
  match downstream with
  | some (Sum.inl s) =>
    (((cache.update_by_key s s.key now).update_by_id s s.key_id now), Sum.inl s)
  | some (Sum.inr f) => (cache, Sum.inr f)
  | none => (cache, Sum.inr ⟨"Write operations not supported", 501⟩)

/-- One iteration of `secret_updated`'s upsert loop: store the secret in
both mappings under its own `key_id` and `key`. -/
def upsertStep (now : Nat) (c : TokenCache) (s : Secret) : TokenCache :=
  (c.update_by_id s s.key_id now).update_by_key s s.key now

/-- `CacheGSecretExecutor.secret_updated`: upsert the batch in both
mappings, invalidate the stale ids and keys, and forward the batch to the
next reverse stage when one exists. -/
def cacheSecretUpdated (cache : TokenCache) (secrets : List Secret) (now : Nat)
    (hasNext : Bool) : TokenCache × Option (List Secret) :=
  let c1 := secrets.foldl (upsertStep now) cache
  let ids := secrets.map Secret.key_id
  let keys := secrets.map Secret.key
  let staleIds := c1.ids.filter fun i => decide (i ∉ ids)
  let staleKeys := c1.keyNames.filter fun k => decide (k ∉ keys)
  let c2 := staleIds.foldl TokenCache.invalidate_by_id c1
  let c3 := staleKeys.foldl TokenCache.invalidate_by_key c2
  (c3, if hasNext then some secrets else none)

/-- The upsert phase of `secret_updated`. -/
def upsertAll (c : TokenCache) (b : List Secret) (now : Nat) : TokenCache :=
  b.foldl (upsertStep now) c

/-- The stale ids computed by `secret_updated` (cached ids after the upsert
phase that are not among the batch ids). -/
def staleIdsOf (c1 : TokenCache) (b : List Secret) : List String :=
  c1.ids.filter fun i => decide (i ∉ b.map Secret.key_id)

/-- The stale keys computed by `secret_updated`. -/
def staleKeysOf (c1 : TokenCache) (b : List Secret) : List String :=
  c1.keyNames.filter fun k => decide (k ∉ b.map Secret.key)

/-- The cache state produced by `secret_updated` (upserts, then stale-id
invalidation, then stale-key invalidation); definitionally the first
component of `cacheSecretUpdated`. -/
def reconcileCache (c : TokenCache) (b : List Secret) (now : Nat) : TokenCache :=
  (staleKeysOf (upsertAll c b now) b).foldl TokenCache.invalidate_by_key
    ((staleIdsOf (upsertAll c b now) b).foldl TokenCache.invalidate_by_id
      (upsertAll c b now))

/-! ### Generator stage (`stages/gsecret/generator/main.py`)

`secrets.choice` is modelled by an oracle `choice : Nat → Nat` giving the
position drawn at each iteration (reduced modulo the charset size); on an
empty sequence it raises `IndexError`, modelled as `none`. -/

/-- `GenerationConfig` (the fields `_generate_secret` reads). -/
structure GenerationConfig where
  length : Nat := 32
  include_uppercase : Bool := true
  include_lowercase : Bool := true
  include_numbers : Bool := true
  include_symbols : Bool := false
  custom_charset : Option String := none
  symbol_set : String := "!@#$%^&*()_+-=[]\x7b\x7d|;:,.<>?"
  exclude_ambiguous : Bool := false
  exclude_similar : Bool := false
  exclude_chars : String := ""

def ascii_uppercase : List Char := "ABCDEFGHIJKLMNOPQRSTUVWXYZ".toList

def ascii_lowercase : List Char := "abcdefghijklmnopqrstuvwxyz".toList

def string_digits : List Char := "0123456789".toList

/-- The union of the enabled class sets (lines 108-116). -/
def classCharset (g : GenerationConfig) : List Char :=
  (if g.include_uppercase then ascii_uppercase else []) ++
  (if g.include_lowercase then ascii_lowercase else []) ++
  (if g.include_numbers then string_digits else []) ++
  (if g.include_symbols then g.symbol_set.toList else [])

/-- The charset before exclusions: `custom_charset` when truthy (set and
non-empty), else the class union (lines 105-116). -/
def assembledCharset (g : GenerationConfig) : List Char :=
  match g.custom_charset with
  | some cs => if cs.toList ≠ [] then cs.toList else classCharset g
  | none => classCharset g

/-- The charset after the configured exclusions (lines 122-127). -/
def finalCharset (g : GenerationConfig) : List Char :=
  let c0 := assembledCharset g
  let c1 :=
    if g.exclude_ambiguous then c0.filter fun ch => decide (ch ∉ "0Ol1I".toList)
    else c0
  let c2 :=
    if g.exclude_similar then c1.filter fun ch => decide (ch ∉ "il1Lo0O".toList)
    else c1
  if g.exclude_chars.toList ≠ [] then
    c2.filter fun ch => decide (ch ∉ g.exclude_chars.toList)
  else c2

/-- `GeneratorGSecretExecutor._generate_secret`: the empty-charset check is
performed on the assembled charset, before the exclusions are applied. -/
def generate_secret (g : GenerationConfig) (choice : Nat → Nat) : Option String :=
  if assembledCharset g = [] then some ""
  else
    let cs := finalCharset g
    if cs = [] then
      if g.length = 0 then some "" else none
    else
      some (String.mk ((List.range g.length).map fun i => cs.getD (choice i % cs.length) 'A'))

/-! ### HTTP dependency helpers (`apis/gsecret/api.py`) -/

/-- Python `str.startswith`. -/
def pyStartsWith (s pre : String) : Bool := pre.toList.isPrefixOf s.toList

/-- Python slicing `s[n:]`. -/
def pyDrop (s : String) (n : Nat) : String := String.mk (s.toList.drop n)

/-- `get_token`: 401 when the header is falsy, strip a `Bearer ` prefix,
otherwise pass the bare value through. -/
def get_token (authorization : Option String) : Except Nat String :=
  match authorization with
  | none => .error 401
  | some a =>
    if a = "" then .error 401
    else if pyStartsWith a "Bearer " then .ok (pyDrop a 7)
    else .ok a

/-- `get_chain_executor`: resolve the chain name, 404 when unknown. -/
def get_chain_executor {α : Type} (ctrl : ChainController α) (chain : String) :
    Except Nat (ForwardChainExecutor α) :=
  match ctrl.get_executor chain with
  | some e => .ok e
  | none => .error 404

/-- `get_first_executor`: first stage of the chain, 404 when there is none. -/
def get_first_executor {α : Type} (e : ForwardChainExecutor α) :
    Except Nat (α × ForwardChainExecutor α) :=
  match e.next with
  | (some s, e') => .ok (s, e')
  | (none, _) => .error 404

/-! ### bws_read sync callback (`stages/gsecret/bws_read/main.py`) -/

/-- The stage `BwsReadGSecretExecutor.secrets_sync` hands `secret_updated`
to: it builds `ReverseChainExecutor(self.chain, chain.get_stage_index(self))`
and takes that executor's first `next()`. -/
def secretsSyncTarget {α : Type} (chain : Chain α) (selfIndex : Nat) : Option α :=
  ((ReverseChainExecutor.make chain (selfIndex : Int)).next).1

/-- A chain built by a sequence of `add_stage` calls from the empty chain. -/
def buildChain {α : Type} (name : String) (adds : List α) : Chain α :=
  adds.foldl Chain.add_stage { name := name, stages := [] }

/-! ### Cache operation language

One operation on a `TokenCache`, covering the raw `TokenCache` API and the
cache stage's read, write and update paths.  The update operations store a
secret under its own `key_id`/`key`, as every call site in the stage does. -/

inductive CacheOp where
  | getById (key_id : String) (ttl : Int) (now : Nat)
  | getByKey (key : String) (ttl : Int) (now : Nat)
  | removeById (key_id : String)
  | removeByKey (key : String)
  | updById (s : Secret) (now : Nat)
  | updByKey (s : Secret) (now : Nat)
  | invById (key_id : String)
  | invByKey (key : String)
  | clearAll
  | stageGetId (cfg : CacheConfig) (key_id : String) (d : Downstream) (now : Nat)
  | stageGetKey (cfg : CacheConfig) (key : String) (d : Downstream) (now : Nat)
  | stageWrite (d : Downstream) (now : Nat)
  | stageUpdated (batch : List Secret) (now : Nat)

/-- The state transformation performed by one cache operation. -/
def applyCacheOp (c : TokenCache) : CacheOp → TokenCache
  | .getById i ttl now => (c.get_by_id i ttl now).1
  | .getByKey k ttl now => (c.get_by_key k ttl now).1
  | .removeById i => c.remove_by_id i
  | .removeByKey k => c.remove_by_key k
  | .updById s now => c.update_by_id s s.key_id now
  | .updByKey s now => c.update_by_key s s.key now
  | .invById i => c.invalidate_by_id i
  | .invByKey k => c.invalidate_by_key k
  | .clearAll => c.clear
  | .stageGetId cfg i d now => (cacheGetSecretId cfg c i d now).1
  | .stageGetKey cfg k d now => (cacheGetSecretKey cfg c k d now).1
  | .stageWrite d now => (cacheWriteSecret c d now).1
  | .stageUpdated b now => (cacheSecretUpdated c b now true).1

/-- A sequence of cache operations applied in order. -/
def runCacheOps (ops : List CacheOp) (c : TokenCache) : TokenCache :=
  ops.foldl applyCacheOp c

/-- The bi-consistency invariant claimed by the spec: every id-mapping
entry's secret key is present in the key mapping and references the same
secret. -/
def BiConsistent (c : TokenCache) : Prop :=
  ∀ i e, alookup c.id_cache i = some e →
    ∃ e', alookup c.key_cache e.secret.key = some e' ∧ e'.secret = e.secret

/-- Per-mapping alignment: each id-mapping entry is stored under its
secret's `key_id`. -/
def IdAligned (l : List (String × CacheEntry)) : Prop :=
  ∀ p ∈ l, (Prod.snd p).secret.key_id = p.1

/-- Per-mapping alignment: each key-mapping entry is stored under its
secret's `key`. -/
def KeyAligned (l : List (String × CacheEntry)) : Prop :=
  ∀ p ∈ l, (Prod.snd p).secret.key = p.1

/-- The invariant that does hold of the cache: each mapping is individually
consistent. -/
def SelfConsistent (c : TokenCache) : Prop :=
  IdAligned c.id_cache ∧ KeyAligned c.key_cache

/-! ## Helper lemmas -/

theorem alookup_aupdate {β : Type} (l : List (String × β)) (k j : String) (f : β → β) :
    alookup (aupdate l k f) j =
      if j = k then (alookup l k).map f else alookup l j := by
  induction l with
  | nil => simp [alookup, aupdate]
  | cons p rest ih =>
    obtain ⟨k', v⟩ := p
    by_cases hk : k' = k
    · subst hk
      by_cases hj : k' = j
      · subst hj
        simp [alookup, aupdate]
      · have hjk : ¬ j = k' := fun h => hj h.symm
        simp [alookup, aupdate, hj, hjk, ih]
    · by_cases hj : k' = j
      · subst hj
        have hjk : ¬ k' = k := hk
        simp [alookup, aupdate, hk, hjk, ih]
      · simp [alookup, aupdate, hk, hj, ih]

theorem alookup_aerase {β : Type} (l : List (String × β)) (k j : String) :
    alookup (aerase l k) j = if j = k then none else alookup l j := by
  induction l with
  | nil => simp [alookup, aerase]
  | cons p rest ih =>
    obtain ⟨k', v⟩ := p
    by_cases hk : k' = k
    · subst hk
      by_cases hj : k' = j
      · subst hj
        simp [aerase, ih]
      · have hjk : ¬ j = k' := fun h => hj h.symm
        simp [alookup, aerase, hj, hjk, ih]
    · by_cases hj : k' = j
      · subst hj
        have hjk : ¬ k' = k := hk
        simp [alookup, aerase, hk, hjk, ih]
      · simp [alookup, aerase, hk, hj, ih]

theorem alookup_append {β : Type} (l₁ l₂ : List (String × β)) (j : String) :
    alookup (l₁ ++ l₂) j =
      match alookup l₁ j with
      | some v => some v
      | none => alookup l₂ j := by
  induction l₁ with
  | nil => simp [alookup]
  | cons p rest ih =>
    obtain ⟨k', v⟩ := p
    by_cases hj : k' = j
    · simp [alookup, hj]
    · simpa [alookup, hj] using ih

theorem alookup_mem {β : Type} {l : List (String × β)} {k : String} {v : β}
    (h : alookup l k = some v) : (k, v) ∈ l := by
  induction l with
  | nil => simp [alookup] at h
  | cons p rest ih =>
    obtain ⟨k', w⟩ := p
    by_cases hk : k' = k
    · subst hk
      simp [alookup] at h
      subst h
      exact List.mem_cons_self _ _
    · simp [alookup, hk] at h
      exact List.mem_cons_of_mem _ (ih h)

theorem alookup_ainsert {β : Type} (l : List (String × β)) (k j : String) (v : β) :
    alookup (ainsert l k v) j = if j = k then some v else alookup l j := by
  unfold ainsert
  rcases hl : alookup l k with _ | w
  · rw [alookup_append]
    by_cases hj : j = k
    · subst hj
      simp [hl, alookup]
    · have hkj : ¬ k = j := fun h => hj h.symm
      rcases hlj : alookup l j with _ | u <;> simp [hj, hkj, hlj, alookup]
  · rw [alookup_aupdate]
    by_cases hj : j = k <;> simp [hj, hl]

theorem buildChain_stages {α : Type} (name : String) (adds : List α) :
    (buildChain name adds).stages = adds := by
  have h : ∀ (c : Chain α), (adds.foldl Chain.add_stage c).stages = c.stages ++ adds := by
    induction adds with
    | nil => intro c; simp
    | cons a rest ih =>
      intro c
      simp [List.foldl_cons, ih, Chain.add_stage]
  simpa using h { name := name, stages := [] }

theorem findIndexFrom_nodup {α : Type} [DecidableEq α] (l : List α) (hnd : l.Nodup) :
    ∀ (i : Nat) (hi : i < l.length) (n : Nat),
      findIndexFrom l (l.get ⟨i, hi⟩) n = some (n + i) := by
  induction l with
  | nil => intro i hi; simp at hi
  | cons x rest ih =>
    intro i hi n
    match i with
    | 0 => simp [findIndexFrom]
    | Nat.succ i' =>
      have hmem : rest.get ⟨i', Nat.lt_of_succ_lt_succ hi⟩ ∈ rest := List.get_mem _ _ _
      have hx : ¬ x = rest.get ⟨i', Nat.lt_of_succ_lt_succ hi⟩ := by
        intro h
        exact (List.nodup_cons.mp hnd).1 (h ▸ hmem)
      have := ih (List.nodup_cons.mp hnd).2 i' (Nat.lt_of_succ_lt_succ hi) (n + 1)
      simp only [List.get_cons_succ, findIndexFrom, if_neg hx, this]
      congr 1
      omega

/-! ### Equation lemmas for the `TokenCache` operations -/

theorem get_by_id_none {c : TokenCache} {i : String} {ttl : Int} {now : Nat}
    (hl : alookup c.id_cache i = none) : c.get_by_id i ttl now = (c, none) := by
  unfold TokenCache.get_by_id
  rw [hl]

theorem get_by_id_expired {c : TokenCache} {i : String} {ttl : Int} {now : Nat}
    {e : CacheEntry} (hl : alookup c.id_cache i = some e)
    (hex : e.expired ttl now = true) :
    c.get_by_id i ttl now =
      ({ id_cache := aerase c.id_cache i,
         key_cache := aerase c.key_cache e.secret.key }, none) := by
  unfold TokenCache.get_by_id
  rw [hl]
  simp [hex]

theorem get_by_id_hit {c : TokenCache} {i : String} {ttl : Int} {now : Nat}
    {e : CacheEntry} (hl : alookup c.id_cache i = some e)
    (hex : e.expired ttl now = false) :
    c.get_by_id i ttl now =
      ({ c with id_cache := aupdate c.id_cache i fun e' => (e'.access now).1 },
       some e.secret) := by
  unfold TokenCache.get_by_id
  rw [hl]
  simp [hex]

theorem get_by_key_none {c : TokenCache} {k : String} {ttl : Int} {now : Nat}
    (hl : alookup c.key_cache k = none) : c.get_by_key k ttl now = (c, none) := by
  unfold TokenCache.get_by_key
  rw [hl]

theorem get_by_key_expired {c : TokenCache} {k : String} {ttl : Int} {now : Nat}
    {e : CacheEntry} (hl : alookup c.key_cache k = some e)
    (hex : e.expired ttl now = true) :
    c.get_by_key k ttl now =
      ({ key_cache := aerase c.key_cache k,
         id_cache := aerase c.id_cache e.secret.key_id }, none) := by
  unfold TokenCache.get_by_key
  rw [hl]
  simp [hex]

theorem get_by_key_hit {c : TokenCache} {k : String} {ttl : Int} {now : Nat}
    {e : CacheEntry} (hl : alookup c.key_cache k = some e)
    (hex : e.expired ttl now = false) :
    c.get_by_key k ttl now =
      ({ c with key_cache := aupdate c.key_cache k fun e' => (e'.access now).1 },
       some e.secret) := by
  unfold TokenCache.get_by_key
  rw [hl]
  simp [hex]

theorem update_by_id_present {c : TokenCache} {s : Secret} {i : String} {now : Nat}
    {e : CacheEntry} (hl : alookup c.id_cache i = some e) :
    c.update_by_id s i now =
      { c with id_cache := aupdate c.id_cache i fun e' => e'.update s now } := by
  unfold TokenCache.update_by_id
  rw [hl]

theorem update_by_id_absent {c : TokenCache} {s : Secret} {i : String} {now : Nat}
    (hl : alookup c.id_cache i = none) :
    c.update_by_id s i now =
      { c with id_cache := c.id_cache ++ [(i, CacheEntry.init s now)] } := by
  unfold TokenCache.update_by_id
  rw [hl]

theorem update_by_key_present {c : TokenCache} {s : Secret} {k : String} {now : Nat}
    {e : CacheEntry} (hl : alookup c.key_cache k = some e) :
    c.update_by_key s k now =
      { c with key_cache := aupdate c.key_cache k fun e' => e'.update s now } := by
  unfold TokenCache.update_by_key
  rw [hl]

theorem update_by_key_absent {c : TokenCache} {s : Secret} {k : String} {now : Nat}
    (hl : alookup c.key_cache k = none) :
    c.update_by_key s k now =
      { c with key_cache := c.key_cache ++ [(k, CacheEntry.init s now)] } := by
  unfold TokenCache.update_by_key
  rw [hl]

theorem invalidate_by_id_present {c : TokenCache} {i : String} {e : CacheEntry}
    (hl : alookup c.id_cache i = some e) :
    c.invalidate_by_id i =
      { id_cache := aerase c.id_cache i,
        key_cache := aerase c.key_cache e.secret.key } := by
  unfold TokenCache.invalidate_by_id
  rw [hl]

theorem invalidate_by_id_absent {c : TokenCache} {i : String}
    (hl : alookup c.id_cache i = none) : c.invalidate_by_id i = c := by
  unfold TokenCache.invalidate_by_id
  rw [hl]

theorem invalidate_by_key_present {c : TokenCache} {k : String} {e : CacheEntry}
    (hl : alookup c.key_cache k = some e) :
    c.invalidate_by_key k =
      { key_cache := aerase c.key_cache k,
        id_cache := aerase c.id_cache e.secret.key_id } := by
  unfold TokenCache.invalidate_by_key
  rw [hl]

theorem invalidate_by_key_absent {c : TokenCache} {k : String}
    (hl : alookup c.key_cache k = none) : c.invalidate_by_key k = c := by
  unfold TokenCache.invalidate_by_key
  rw [hl]

/-! ### Derived lookup lemmas -/

theorem update_by_id_key_cache (c : TokenCache) (s : Secret) (i : String) (now : Nat) :
    (c.update_by_id s i now).key_cache = c.key_cache := by
  rcases hl : alookup c.id_cache i with _ | e
  · rw [update_by_id_absent hl]
  · rw [update_by_id_present hl]

theorem update_by_key_id_cache (c : TokenCache) (s : Secret) (k : String) (now : Nat) :
    (c.update_by_key s k now).id_cache = c.id_cache := by
  rcases hl : alookup c.key_cache k with _ | e
  · rw [update_by_key_absent hl]
  · rw [update_by_key_present hl]

theorem alookup_update_by_id_self (c : TokenCache) (s : Secret) (i : String) (now : Nat) :
    ∃ e, alookup (c.update_by_id s i now).id_cache i = some e ∧ e.secret = s := by
  rcases hl : alookup c.id_cache i with _ | w
  · rw [update_by_id_absent hl]
    refine ⟨CacheEntry.init s now, ?_, rfl⟩
    show alookup (c.id_cache ++ [(i, CacheEntry.init s now)]) i = _
    rw [alookup_append, hl]
    simp [alookup]
  · rw [update_by_id_present hl]
    refine ⟨w.update s now, ?_, rfl⟩
    show alookup (aupdate c.id_cache i _) i = _
    rw [alookup_aupdate, hl]
    simp

theorem alookup_update_by_id_other (c : TokenCache) (s : Secret) (i : String)
    (now : Nat) (j : String) (h : j ≠ i) :
    alookup (c.update_by_id s i now).id_cache j = alookup c.id_cache j := by
  rcases hl : alookup c.id_cache i with _ | w
  · rw [update_by_id_absent hl]
    show alookup (c.id_cache ++ [(i, CacheEntry.init s now)]) j = _
    rw [alookup_append]
    have h' : ¬ i = j := fun hh => h hh.symm
    rcases hj : alookup c.id_cache j with _ | u <;> simp [h, h', hj, alookup]
  · rw [update_by_id_present hl]
    show alookup (aupdate c.id_cache i _) j = _
    rw [alookup_aupdate]
    simp [h]

theorem alookup_update_by_key_self (c : TokenCache) (s : Secret) (k : String) (now : Nat) :
    ∃ e, alookup (c.update_by_key s k now).key_cache k = some e ∧ e.secret = s := by
  rcases hl : alookup c.key_cache k with _ | w
  · rw [update_by_key_absent hl]
    refine ⟨CacheEntry.init s now, ?_, rfl⟩
    show alookup (c.key_cache ++ [(k, CacheEntry.init s now)]) k = _
    rw [alookup_append, hl]
    simp [alookup]
  · rw [update_by_key_present hl]
    refine ⟨w.update s now, ?_, rfl⟩
    show alookup (aupdate c.key_cache k _) k = _
    rw [alookup_aupdate, hl]
    simp

theorem alookup_update_by_key_other (c : TokenCache) (s : Secret) (k : String)
    (now : Nat) (j : String) (h : j ≠ k) :
    alookup (c.update_by_key s k now).key_cache j = alookup c.key_cache j := by
  rcases hl : alookup c.key_cache k with _ | w
  · rw [update_by_key_absent hl]
    show alookup (c.key_cache ++ [(k, CacheEntry.init s now)]) j = _
    rw [alookup_append]
    have h' : ¬ k = j := fun hh => h hh.symm
    rcases hj : alookup c.key_cache j with _ | u <;> simp [h, h', hj, alookup]
  · rw [update_by_key_present hl]
    show alookup (aupdate c.key_cache k _) j = _
    rw [alookup_aupdate]
    simp [h]

theorem alookup_invalidate_by_id_id (c : TokenCache) (j i : String) :
    alookup (c.invalidate_by_id j).id_cache i =
      if i = j then none else alookup c.id_cache i := by
  rcases hl : alookup c.id_cache j with _ | e
  · rw [invalidate_by_id_absent hl]
    by_cases hij : i = j
    · subst hij
      simp [hl]
    · simp [hij]
  · rw [invalidate_by_id_present hl]
    show alookup (aerase c.id_cache j) i = _
    rw [alookup_aerase]

theorem alookup_invalidate_by_key_key (c : TokenCache) (j k : String) :
    alookup (c.invalidate_by_key j).key_cache k =
      if k = j then none else alookup c.key_cache k := by
  rcases hl : alookup c.key_cache j with _ | e
  · rw [invalidate_by_key_absent hl]
    by_cases hkj : k = j
    · subst hkj
      simp [hl]
    · simp [hkj]
  · rw [invalidate_by_key_present hl]
    show alookup (aerase c.key_cache j) k = _
    rw [alookup_aerase]

theorem invalidate_by_id_key_cases (c : TokenCache) (j k : String) :
    alookup (c.invalidate_by_id j).key_cache k = none ∨
    alookup (c.invalidate_by_id j).key_cache k = alookup c.key_cache k := by
  rcases hl : alookup c.id_cache j with _ | e
  · rw [invalidate_by_id_absent hl]
    right
    rfl
  · rw [invalidate_by_id_present hl]
    show alookup (aerase c.key_cache e.secret.key) k = none ∨ _
    rw [alookup_aerase]
    by_cases h : k = e.secret.key <;> simp [h]

theorem invalidate_by_key_id_cases (c : TokenCache) (j i : String) :
    alookup (c.invalidate_by_key j).id_cache i = none ∨
    alookup (c.invalidate_by_key j).id_cache i = alookup c.id_cache i := by
  rcases hl : alookup c.key_cache j with _ | e
  · rw [invalidate_by_key_absent hl]
    right
    rfl
  · rw [invalidate_by_key_present hl]
    show alookup (aerase c.id_cache e.secret.key_id) i = none ∨ _
    rw [alookup_aerase]
    by_cases h : i = e.secret.key_id <;> simp [h]

theorem invalidate_by_id_key_preserved (c : TokenCache) (j k : String)
    (h : ∀ e, alookup c.id_cache j = some e → e.secret.key ≠ k) :
    alookup (c.invalidate_by_id j).key_cache k = alookup c.key_cache k := by
  rcases hl : alookup c.id_cache j with _ | e
  · rw [invalidate_by_id_absent hl]
  · rw [invalidate_by_id_present hl]
    show alookup (aerase c.key_cache e.secret.key) k = _
    rw [alookup_aerase]
    have : ¬ k = e.secret.key := fun hk => h e hl hk.symm
    simp [this]

theorem invalidate_by_key_id_preserved (c : TokenCache) (j i : String)
    (h : ∀ e, alookup c.key_cache j = some e → e.secret.key_id ≠ i) :
    alookup (c.invalidate_by_key j).id_cache i = alookup c.id_cache i := by
  rcases hl : alookup c.key_cache j with _ | e
  · rw [invalidate_by_key_absent hl]
  · rw [invalidate_by_key_present hl]
    show alookup (aerase c.id_cache e.secret.key_id) i = _
    rw [alookup_aerase]
    have : ¬ i = e.secret.key_id := fun hk => h e hl hk.symm
    simp [this]

theorem invalidate_by_id_key_none (c : TokenCache) (j k : String)
    (h : alookup c.key_cache k = none) :
    alookup (c.invalidate_by_id j).key_cache k = none := by
  rcases invalidate_by_id_key_cases c j k with hc | hc
  · exact hc
  · rw [hc, h]

theorem invalidate_by_key_id_none (c : TokenCache) (j i : String)
    (h : alookup c.id_cache i = none) :
    alookup (c.invalidate_by_key j).id_cache i = none := by
  rcases invalidate_by_key_id_cases c j i with hc | hc
  · exact hc
  · rw [hc, h]

theorem invalidate_by_id_id_none (c : TokenCache) (j i : String)
    (h : alookup c.id_cache i = none) :
    alookup (c.invalidate_by_id j).id_cache i = none := by
  rw [alookup_invalidate_by_id_id]
  by_cases hij : i = j <;> simp [hij, h]

theorem invalidate_by_key_key_none (c : TokenCache) (j k : String)
    (h : alookup c.key_cache k = none) :
    alookup (c.invalidate_by_key j).key_cache k = none := by
  rw [alookup_invalidate_by_key_key]
  by_cases hkj : k = j <;> simp [hkj, h]

theorem alookup_some_mem_akeys {β : Type} {l : List (String × β)} {k : String} {v : β}
    (h : alookup l k = some v) : k ∈ akeys l := by
  have := alookup_mem h
  exact List.mem_map.mpr ⟨(k, v), this, rfl⟩

/-! ### Membership lemmas for the dict operations -/

theorem mem_aerase {β : Type} {p : String × β} {l : List (String × β)} {k : String}
    (h : p ∈ aerase l k) : p ∈ l := by
  induction l with
  | nil => simp [aerase] at h
  | cons q rest ih =>
    obtain ⟨k', v⟩ := q
    by_cases hk : k' = k
    · simp only [aerase, if_pos hk] at h
      exact List.mem_cons_of_mem _ (ih h)
    · simp only [aerase, if_neg hk] at h
      rcases List.mem_cons.mp h with h1 | h1
      · exact h1 ▸ List.mem_cons_self _ _
      · exact List.mem_cons_of_mem _ (ih h1)

theorem mem_aupdate {β : Type} {p : String × β} {l : List (String × β)} {k : String}
    {f : β → β} (h : p ∈ aupdate l k f) :
    ∃ v, (p.1, v) ∈ l ∧ (p.2 = v ∨ (p.1 = k ∧ p.2 = f v)) := by
  induction l with
  | nil => simp [aupdate] at h
  | cons q rest ih =>
    obtain ⟨k', v⟩ := q
    simp only [aupdate] at h
    rcases List.mem_cons.mp h with h1 | h1
    · subst h1
      by_cases hk : k' = k
      · exact ⟨v, List.mem_cons_self _ _, Or.inr ⟨hk, by simp [hk]⟩⟩
      · exact ⟨v, List.mem_cons_self _ _, Or.inl (by simp [hk])⟩
    · obtain ⟨w, hw, hc⟩ := ih h1
      exact ⟨w, List.mem_cons_of_mem _ hw, hc⟩

/-! ### Alignment preservation -/

theorem IdAligned_aerase {l : List (String × CacheEntry)} {k : String}
    (h : IdAligned l) : IdAligned (aerase l k) :=
  fun p hp => h p (mem_aerase hp)

theorem KeyAligned_aerase {l : List (String × CacheEntry)} {k : String}
    (h : KeyAligned l) : KeyAligned (aerase l k) :=
  fun p hp => h p (mem_aerase hp)

theorem IdAligned_aupdate {l : List (String × CacheEntry)} {k : String}
    {f : CacheEntry → CacheEntry} (h : IdAligned l)
    (hf : ∀ v, (f v).secret.key_id = k ∨ (f v).secret = v.secret) :
    IdAligned (aupdate l k f) := by
  intro p hp
  obtain ⟨v, hv, hc⟩ := mem_aupdate hp
  rcases hc with h1 | ⟨hk, h2⟩
  · rw [h1]
    exact h (p.1, v) hv
  · rcases hf v with h3 | h3
    · rw [h2, h3, hk]
    · rw [h2, h3]
      exact h (p.1, v) hv

theorem KeyAligned_aupdate {l : List (String × CacheEntry)} {k : String}
    {f : CacheEntry → CacheEntry} (h : KeyAligned l)
    (hf : ∀ v, (f v).secret.key = k ∨ (f v).secret = v.secret) :
    KeyAligned (aupdate l k f) := by
  intro p hp
  obtain ⟨v, hv, hc⟩ := mem_aupdate hp
  rcases hc with h1 | ⟨hk, h2⟩
  · rw [h1]
    exact h (p.1, v) hv
  · rcases hf v with h3 | h3
    · rw [h2, h3, hk]
    · rw [h2, h3]
      exact h (p.1, v) hv

theorem IdAligned_append {l : List (String × CacheEntry)} {k : String}
    {v : CacheEntry} (h : IdAligned l) (hv : v.secret.key_id = k) :
    IdAligned (l ++ [(k, v)]) := by
  intro p hp
  rcases List.mem_append.mp hp with h1 | h1
  · exact h p h1
  · simp only [List.mem_singleton] at h1
    subst h1
    exact hv

theorem KeyAligned_append {l : List (String × CacheEntry)} {k : String}
    {v : CacheEntry} (h : KeyAligned l) (hv : v.secret.key = k) :
    KeyAligned (l ++ [(k, v)]) := by
  intro p hp
  rcases List.mem_append.mp hp with h1 | h1
  · exact h p h1
  · simp only [List.mem_singleton] at h1
    subst h1
    exact hv

/-! ### Self-consistency through every cache operation -/

theorem sc_get_by_id (c : TokenCache) (i : String) (ttl : Int) (now : Nat)
    (h : SelfConsistent c) : SelfConsistent (c.get_by_id i ttl now).1 := by
  rcases hl : alookup c.id_cache i with _ | e
  · rw [get_by_id_none hl]
    exact h
  · rcases hex : e.expired ttl now with _ | _
    · rw [get_by_id_hit hl hex]
      exact ⟨IdAligned_aupdate h.1 (fun v => Or.inr rfl), h.2⟩
    · rw [get_by_id_expired hl hex]
      exact ⟨IdAligned_aerase h.1, KeyAligned_aerase h.2⟩

theorem sc_get_by_key (c : TokenCache) (k : String) (ttl : Int) (now : Nat)
    (h : SelfConsistent c) : SelfConsistent (c.get_by_key k ttl now).1 := by
  rcases hl : alookup c.key_cache k with _ | e
  · rw [get_by_key_none hl]
    exact h
  · rcases hex : e.expired ttl now with _ | _
    · rw [get_by_key_hit hl hex]
      exact ⟨h.1, KeyAligned_aupdate h.2 (fun v => Or.inr rfl)⟩
    · rw [get_by_key_expired hl hex]
      exact ⟨IdAligned_aerase h.1, KeyAligned_aerase h.2⟩

theorem sc_remove_by_id (c : TokenCache) (i : String) (h : SelfConsistent c) :
    SelfConsistent (c.remove_by_id i) :=
  ⟨IdAligned_aerase h.1, h.2⟩

theorem sc_remove_by_key (c : TokenCache) (k : String) (h : SelfConsistent c) :
    SelfConsistent (c.remove_by_key k) :=
  ⟨h.1, KeyAligned_aerase h.2⟩

theorem sc_update_by_id (c : TokenCache) (s : Secret) (now : Nat)
    (h : SelfConsistent c) : SelfConsistent (c.update_by_id s s.key_id now) := by
  rcases hl : alookup c.id_cache s.key_id with _ | e
  · rw [update_by_id_absent hl]
    exact ⟨IdAligned_append h.1 rfl, h.2⟩
  · rw [update_by_id_present hl]
    exact ⟨IdAligned_aupdate h.1 (fun v => Or.inl rfl), h.2⟩

theorem sc_update_by_key (c : TokenCache) (s : Secret) (now : Nat)
    (h : SelfConsistent c) : SelfConsistent (c.update_by_key s s.key now) := by
  rcases hl : alookup c.key_cache s.key with _ | e
  · rw [update_by_key_absent hl]
    exact ⟨h.1, KeyAligned_append h.2 rfl⟩
  · rw [update_by_key_present hl]
    exact ⟨h.1, KeyAligned_aupdate h.2 (fun v => Or.inl rfl)⟩

theorem sc_invalidate_by_id (c : TokenCache) (i : String) (h : SelfConsistent c) :
    SelfConsistent (c.invalidate_by_id i) := by
  rcases hl : alookup c.id_cache i with _ | e
  · rw [invalidate_by_id_absent hl]
    exact h
  · rw [invalidate_by_id_present hl]
    exact ⟨IdAligned_aerase h.1, KeyAligned_aerase h.2⟩

theorem sc_invalidate_by_key (c : TokenCache) (k : String) (h : SelfConsistent c) :
    SelfConsistent (c.invalidate_by_key k) := by
  rcases hl : alookup c.key_cache k with _ | e
  · rw [invalidate_by_key_absent hl]
    exact h
  · rw [invalidate_by_key_present hl]
    exact ⟨IdAligned_aerase h.1, KeyAligned_aerase h.2⟩

theorem sc_empty : SelfConsistent TokenCache.empty := by
  constructor <;> intro p hp <;> simp [TokenCache.empty] at hp

theorem sc_clear (c : TokenCache) : SelfConsistent c.clear := sc_empty

theorem sc_upsertStep (c : TokenCache) (s : Secret) (now : Nat)
    (h : SelfConsistent c) : SelfConsistent (upsertStep now c s) :=
  sc_update_by_key _ s now (sc_update_by_id c s now h)

theorem sc_fold_upsert (b : List Secret) (now : Nat) :
    ∀ c : TokenCache, SelfConsistent c →
      SelfConsistent (b.foldl (upsertStep now) c) := by
  induction b with
  | nil => intro c h; exact h
  | cons s rest ih => intro c h; exact ih _ (sc_upsertStep c s now h)

theorem sc_fold_invById (ks : List String) :
    ∀ c : TokenCache, SelfConsistent c →
      SelfConsistent (ks.foldl TokenCache.invalidate_by_id c) := by
  induction ks with
  | nil => intro c h; exact h
  | cons k rest ih => intro c h; exact ih _ (sc_invalidate_by_id c k h)

theorem sc_fold_invByKey (ks : List String) :
    ∀ c : TokenCache, SelfConsistent c →
      SelfConsistent (ks.foldl TokenCache.invalidate_by_key c) := by
  induction ks with
  | nil => intro c h; exact h
  | cons k rest ih => intro c h; exact ih _ (sc_invalidate_by_key c k h)

theorem sc_cacheGetSecretId (cfg : CacheConfig) (c : TokenCache) (i : String)
    (d : Downstream) (now : Nat) (h : SelfConsistent c) :
    SelfConsistent (cacheGetSecretId cfg c i d now).1 := by
  have h1 := sc_get_by_id c i cfg.ttl_seconds now h
  simp only [cacheGetSecretId]
  rcases (c.get_by_id i cfg.ttl_seconds now).2 with _ | s
  · rcases d with _ | r
    · exact h1
    · rcases r with s | f
      · exact sc_update_by_key _ s now h1
      · by_cases h404 : f.code = 404
        · simp only [if_pos h404]
          exact sc_invalidate_by_id _ i h1
        · simp only [if_neg h404]
          rcases hie : cfg.invalidate_on_upstream_error with _ | _
          · simp only [hie, Bool.false_eq_true, if_false]
            exact h1
          · simp only [hie, if_true]
            exact sc_invalidate_by_id _ i h1
  · exact h1

theorem sc_cacheGetSecretKey (cfg : CacheConfig) (c : TokenCache) (k : String)
    (d : Downstream) (now : Nat) (h : SelfConsistent c) :
    SelfConsistent (cacheGetSecretKey cfg c k d now).1 := by
  have h1 := sc_get_by_key c k cfg.ttl_seconds now h
  simp only [cacheGetSecretKey]
  rcases (c.get_by_key k cfg.ttl_seconds now).2 with _ | s
  · rcases d with _ | r
    · exact h1
    · rcases r with s | f
      · exact sc_update_by_key _ s now h1
      · by_cases h404 : f.code = 404
        · simp only [if_pos h404]
          exact sc_invalidate_by_key _ k h1
        · simp only [if_neg h404]
          rcases hie : cfg.invalidate_on_upstream_error with _ | _
          · simp only [hie, Bool.false_eq_true, if_false]
            exact h1
          · simp only [hie, if_true]
            exact sc_invalidate_by_key _ k h1
  · exact h1

theorem sc_cacheWriteSecret (c : TokenCache) (d : Downstream) (now : Nat)
    (h : SelfConsistent c) : SelfConsistent (cacheWriteSecret c d now).1 := by
  rcases d with _ | r
  · exact h
  · rcases r with s | f
    · exact sc_update_by_id _ s now (sc_update_by_key c s now h)
    · exact h

theorem sc_cacheSecretUpdated (c : TokenCache) (b : List Secret) (now : Nat)
    (hasNext : Bool) (h : SelfConsistent c) :
    SelfConsistent (cacheSecretUpdated c b now hasNext).1 := by
  simp only [cacheSecretUpdated]
  exact sc_fold_invByKey _ _ (sc_fold_invById _ _ (sc_fold_upsert b now c h))

theorem sc_applyCacheOp (c : TokenCache) (op : CacheOp) (h : SelfConsistent c) :
    SelfConsistent (applyCacheOp c op) := by
  cases op with
  | getById i ttl now => exact sc_get_by_id c i ttl now h
  | getByKey k ttl now => exact sc_get_by_key c k ttl now h
  | removeById i => exact sc_remove_by_id c i h
  | removeByKey k => exact sc_remove_by_key c k h
  | updById s now => exact sc_update_by_id c s now h
  | updByKey s now => exact sc_update_by_key c s now h
  | invById i => exact sc_invalidate_by_id c i h
  | invByKey k => exact sc_invalidate_by_key c k h
  | clearAll => exact sc_clear c
  | stageGetId cfg i d now => exact sc_cacheGetSecretId cfg c i d now h
  | stageGetKey cfg k d now => exact sc_cacheGetSecretKey cfg c k d now h
  | stageWrite d now => exact sc_cacheWriteSecret c d now h
  | stageUpdated b now => exact sc_cacheSecretUpdated c b now true h

/-! ### Lookup lemmas for `secret_updated`'s upsert loop -/

theorem upsertStep_id_self (c : TokenCache) (s : Secret) (now : Nat) :
    ∃ e, alookup (upsertStep now c s).id_cache s.key_id = some e ∧ e.secret = s := by
  unfold upsertStep
  rw [update_by_key_id_cache]
  exact alookup_update_by_id_self c s s.key_id now

theorem upsertStep_id_other (c : TokenCache) (s : Secret) (now : Nat) (j : String)
    (h : j ≠ s.key_id) :
    alookup (upsertStep now c s).id_cache j = alookup c.id_cache j := by
  unfold upsertStep
  rw [update_by_key_id_cache]
  exact alookup_update_by_id_other c s s.key_id now j h

theorem upsertStep_key_self (c : TokenCache) (s : Secret) (now : Nat) :
    ∃ e, alookup (upsertStep now c s).key_cache s.key = some e ∧ e.secret = s := by
  unfold upsertStep
  exact alookup_update_by_key_self _ s s.key now

theorem upsertStep_key_other (c : TokenCache) (s : Secret) (now : Nat) (j : String)
    (h : j ≠ s.key) :
    alookup (upsertStep now c s).key_cache j = alookup c.key_cache j := by
  unfold upsertStep
  rw [alookup_update_by_key_other _ s s.key now j h, update_by_id_key_cache]

theorem fold_upsert_id_other (b : List Secret) (now : Nat) :
    ∀ (c : TokenCache) (i : String), i ∉ b.map Secret.key_id →
      alookup (b.foldl (upsertStep now) c).id_cache i = alookup c.id_cache i := by
  induction b with
  | nil => intro c i _; rfl
  | cons s rest ih =>
    intro c i hi
    rw [List.map_cons, List.mem_cons] at hi
    push_neg at hi
    rw [List.foldl_cons, ih _ i hi.2, upsertStep_id_other c s now i hi.1]

theorem fold_upsert_key_other (b : List Secret) (now : Nat) :
    ∀ (c : TokenCache) (k : String), k ∉ b.map Secret.key →
      alookup (b.foldl (upsertStep now) c).key_cache k = alookup c.key_cache k := by
  induction b with
  | nil => intro c k _; rfl
  | cons s rest ih =>
    intro c k hk
    rw [List.map_cons, List.mem_cons] at hk
    push_neg at hk
    rw [List.foldl_cons, ih _ k hk.2, upsertStep_key_other c s now k hk.1]

theorem fold_upsert_id_batch (now : Nat) (b : List Secret) :
    ∀ (c : TokenCache) (s : Secret), s ∈ b → (b.map Secret.key_id).Nodup →
      ∃ e, alookup (b.foldl (upsertStep now) c).id_cache s.key_id = some e ∧
        e.secret = s := by
  induction b with
  | nil => intro c s h; simp at h
  | cons s0 rest ih =>
    intro c s hs hnd
    rw [List.map_cons, List.nodup_cons] at hnd
    rcases List.mem_cons.mp hs with h | h
    · subst h
      obtain ⟨e, he, hsec⟩ := upsertStep_id_self c s now
      refine ⟨e, ?_, hsec⟩
      rw [List.foldl_cons, fold_upsert_id_other rest now _ s.key_id hnd.1, he]
    · rw [List.foldl_cons]
      exact ih _ s h hnd.2

theorem fold_upsert_key_batch (now : Nat) (b : List Secret) :
    ∀ (c : TokenCache) (s : Secret), s ∈ b → (b.map Secret.key).Nodup →
      ∃ e, alookup (b.foldl (upsertStep now) c).key_cache s.key = some e ∧
        e.secret = s := by
  induction b with
  | nil => intro c s h; simp at h
  | cons s0 rest ih =>
    intro c s hs hnd
    rw [List.map_cons, List.nodup_cons] at hnd
    rcases List.mem_cons.mp hs with h | h
    · subst h
      obtain ⟨e, he, hsec⟩ := upsertStep_key_self c s now
      refine ⟨e, ?_, hsec⟩
      rw [List.foldl_cons, fold_upsert_key_other rest now _ s.key hnd.1, he]
    · rw [List.foldl_cons]
      exact ih _ s h hnd.2

/-! ### Lookup lemmas for `secret_updated`'s stale-invalidation loops -/

theorem fold_invById_id_other (ks : List String) :
    ∀ (c : TokenCache) (i : String), i ∉ ks →
      alookup (ks.foldl TokenCache.invalidate_by_id c).id_cache i =
        alookup c.id_cache i := by
  induction ks with
  | nil => intro c i _; rfl
  | cons j rest ih =>
    intro c i hi
    have hij : i ≠ j := fun h => hi (h ▸ List.mem_cons_self _ _)
    rw [List.foldl_cons, ih _ i (fun h => hi (List.mem_cons_of_mem _ h)),
        alookup_invalidate_by_id_id, if_neg hij]

theorem fold_invById_id_none (ks : List String) :
    ∀ (c : TokenCache) (i : String), alookup c.id_cache i = none →
      alookup (ks.foldl TokenCache.invalidate_by_id c).id_cache i = none := by
  induction ks with
  | nil => intro c i h; exact h
  | cons j rest ih =>
    intro c i h
    rw [List.foldl_cons]
    exact ih _ i (invalidate_by_id_id_none c j i h)

theorem fold_invById_id_mem (ks : List String) :
    ∀ (c : TokenCache) (i : String), i ∈ ks →
      alookup (ks.foldl TokenCache.invalidate_by_id c).id_cache i = none := by
  induction ks with
  | nil => intro c i h; simp at h
  | cons j rest ih =>
    intro c i hi
    rw [List.foldl_cons]
    by_cases hij : i = j
    · subst hij
      apply fold_invById_id_none
      rw [alookup_invalidate_by_id_id, if_pos rfl]
    · exact ih _ i ((List.mem_cons.mp hi).resolve_left hij)

theorem fold_invById_key_none (ks : List String) :
    ∀ (c : TokenCache) (k : String), alookup c.key_cache k = none →
      alookup (ks.foldl TokenCache.invalidate_by_id c).key_cache k = none := by
  induction ks with
  | nil => intro c k h; exact h
  | cons j rest ih =>
    intro c k h
    rw [List.foldl_cons]
    exact ih _ k (invalidate_by_id_key_none c j k h)

theorem fold_invById_key_preserved (bids bkeys : List String) (ks : List String) :
    ∀ (c : TokenCache),
      (∀ i e, i ∉ bids → alookup c.id_cache i = some e → e.secret.key ∉ bkeys) →
      (∀ i ∈ ks, i ∉ bids) →
      ∀ k ∈ bkeys,
        alookup (ks.foldl TokenCache.invalidate_by_id c).key_cache k =
          alookup c.key_cache k := by
  induction ks with
  | nil => intro c _ _ k _; rfl
  | cons j rest ih =>
    intro c hP hks k hk
    rw [List.foldl_cons]
    have hj : j ∉ bids := hks j (List.mem_cons_self _ _)
    have hstep : alookup (c.invalidate_by_id j).key_cache k = alookup c.key_cache k := by
      apply invalidate_by_id_key_preserved
      intro e he hke
      exact (hP j e hj he) (hke ▸ hk)
    have hP' : ∀ i e, i ∉ bids → alookup (c.invalidate_by_id j).id_cache i = some e →
        e.secret.key ∉ bkeys := by
      intro i e hi he
      rw [alookup_invalidate_by_id_id] at he
      by_cases hij : i = j
      · rw [if_pos hij] at he
        exact absurd he (by simp)
      · rw [if_neg hij] at he
        exact hP i e hi he
    rw [ih _ hP' (fun i hi => hks i (List.mem_cons_of_mem _ hi)) k hk, hstep]

theorem fold_invById_preserves_keymap_prop (bids bkeys : List String)
    (ks : List String) :
    ∀ (c : TokenCache),
      (∀ k e, k ∉ bkeys → alookup c.key_cache k = some e →
        e.secret.key_id ∉ bids) →
      ∀ k e, k ∉ bkeys →
        alookup (ks.foldl TokenCache.invalidate_by_id c).key_cache k = some e →
        e.secret.key_id ∉ bids := by
  induction ks with
  | nil => intro c hQ; exact hQ
  | cons j rest ih =>
    intro c hQ
    rw [List.foldl_cons]
    apply ih
    intro k e hk he
    rcases invalidate_by_id_key_cases c j k with hc | hc
    · rw [hc] at he
      exact absurd he (by simp)
    · rw [hc] at he
      exact hQ k e hk he

theorem fold_invByKey_key_none (ks : List String) :
    ∀ (c : TokenCache) (k : String), alookup c.key_cache k = none →
      alookup (ks.foldl TokenCache.invalidate_by_key c).key_cache k = none := by
  induction ks with
  | nil => intro c k h; exact h
  | cons j rest ih =>
    intro c k h
    rw [List.foldl_cons]
    exact ih _ k (invalidate_by_key_key_none c j k h)

theorem fold_invByKey_key_mem (ks : List String) :
    ∀ (c : TokenCache) (k : String), k ∈ ks →
      alookup (ks.foldl TokenCache.invalidate_by_key c).key_cache k = none := by
  induction ks with
  | nil => intro c k h; simp at h
  | cons j rest ih =>
    intro c k hk
    rw [List.foldl_cons]
    by_cases hkj : k = j
    · subst hkj
      apply fold_invByKey_key_none
      rw [alookup_invalidate_by_key_key, if_pos rfl]
    · exact ih _ k ((List.mem_cons.mp hk).resolve_left hkj)

theorem fold_invByKey_key_other (ks : List String) :
    ∀ (c : TokenCache) (k : String), k ∉ ks →
      alookup (ks.foldl TokenCache.invalidate_by_key c).key_cache k =
        alookup c.key_cache k := by
  induction ks with
  | nil => intro c k _; rfl
  | cons j rest ih =>
    intro c k hk
    have hkj : k ≠ j := fun h => hk (h ▸ List.mem_cons_self _ _)
    rw [List.foldl_cons, ih _ k (fun h => hk (List.mem_cons_of_mem _ h)),
        alookup_invalidate_by_key_key, if_neg hkj]

theorem fold_invByKey_id_none (ks : List String) :
    ∀ (c : TokenCache) (i : String), alookup c.id_cache i = none →
      alookup (ks.foldl TokenCache.invalidate_by_key c).id_cache i = none := by
  induction ks with
  | nil => intro c i h; exact h
  | cons j rest ih =>
    intro c i h
    rw [List.foldl_cons]
    exact ih _ i (invalidate_by_key_id_none c j i h)

theorem fold_invByKey_id_preserved (bids bkeys : List String) (ks : List String) :
    ∀ (c : TokenCache),
      (∀ k e, k ∉ bkeys → alookup c.key_cache k = some e →
        e.secret.key_id ∉ bids) →
      (∀ k ∈ ks, k ∉ bkeys) →
      ∀ i ∈ bids,
        alookup (ks.foldl TokenCache.invalidate_by_key c).id_cache i =
          alookup c.id_cache i := by
  induction ks with
  | nil => intro c _ _ i _; rfl
  | cons j rest ih =>
    intro c hQ hks i hi
    rw [List.foldl_cons]
    have hj : j ∉ bkeys := hks j (List.mem_cons_self _ _)
    have hstep : alookup (c.invalidate_by_key j).id_cache i = alookup c.id_cache i := by
      apply invalidate_by_key_id_preserved
      intro e he hei
      exact (hQ j e hj he) (hei ▸ hi)
    have hQ' : ∀ k e, k ∉ bkeys → alookup (c.invalidate_by_key j).key_cache k = some e →
        e.secret.key_id ∉ bids := by
      intro k e hk he
      rw [alookup_invalidate_by_key_key] at he
      by_cases hkj : k = j
      · rw [if_pos hkj] at he
        exact absurd he (by simp)
      · rw [if_neg hkj] at he
        exact hQ k e hk he
    rw [ih _ hQ' (fun k hk => hks k (List.mem_cons_of_mem _ hk)) i hi, hstep]

/-! ## Claims -/

/-- C1 (code_bug evidence): on a cache miss in `get_secret_id` where the
downstream stage returns a `Secret`, the cache stage stores the secret only
in the key mapping; the secret's `key_id` is absent from the id mapping,
contrary to the spec's mandate to upsert both mappings. -/
theorem c1_get_secret_id_caches_only_by_key :
    (cacheGetSecretId {} TokenCache.empty "i"
        (some (Sum.inl { key_id := "i", key := "k", secret := "v" })) 0).2 =
      Sum.inl { key_id := "i", key := "k", secret := "v" } ∧
    alookup (cacheGetSecretId {} TokenCache.empty "i"
        (some (Sum.inl { key_id := "i", key := "k", secret := "v" })) 0).1.key_cache "k" =
      some (CacheEntry.init { key_id := "i", key := "k", secret := "v" } 0) ∧
    alookup (cacheGetSecretId {} TokenCache.empty "i"
        (some (Sum.inl { key_id := "i", key := "k", secret := "v" })) 0).1.id_cache "i" =
      none ∧
    alookup (cacheGetSecretKey {} TokenCache.empty "k"
        (some (Sum.inl { key_id := "i", key := "k", secret := "v" })) 0).1.id_cache "i" =
      none := by
  refine ⟨rfl, ?_, rfl, rfl⟩
  rfl

/-- C2 (code_bug evidence): `secrets_sync` at chain index 1 of the chain
`[10, 20]` builds its reverse executor at index 1, so the stage the executor
yields (the receiver of `secret_updated`) is the bws_read stage itself
(stage 20 at index 1), not the preceding stage 10 at index 0. -/
theorem c2_secrets_sync_targets_self :
    secretsSyncTarget { name := "c", stages := [10, 20] } 1 = some 20 ∧
    secretsSyncTarget ({ name := "c", stages := [10, 20] } : Chain Nat) 1 ≠ some 10 := by
  constructor
  · rfl
  · decide

/-- C3 counterexample: a reverse executor over the one-stage chain `[5]`
that has been exhausted (its `current_index` reached `-1`) violates the
claim: `copy()` re-enters the constructor, which maps `-1` to
`len(chain) - 1`, so `copy().next()` yields the last stage again while
`next()` on the original yields the exhausted result. -/
theorem c3_counterexample :
    (((((ReverseChainExecutor.make { name := "c", stages := [5] } (-1)).next).2).copy).next).1 =
      some 5 ∧
    ((((ReverseChainExecutor.make ({ name := "c", stages := [5] } : Chain Nat) (-1)).next).2).next).1 =
      none := by
  constructor <;> decide

/-- C3 amended: `copy().next()` agrees with `next()` (and copying never
mutates the original, which holds by construction since `copy` builds a new
executor) for every forward executor position and for every reverse
executor position other than the `-1` sentinel; a reverse executor whose
index is `-1` is repositioned to `len(chain) - 1` by `copy`. -/
theorem c3_copy_next_agrees (α : Type) (ch : Chain α) (i : Int) (h : i ≠ -1) :
    (∀ j : Int,
      (((ForwardChainExecutor.mk ch j).copy).next).1 = ((ForwardChainExecutor.mk ch j).next).1) ∧
    (((ReverseChainExecutor.mk ch i).copy).next).1 = ((ReverseChainExecutor.mk ch i).next).1 := by
  constructor
  · intro j
    rfl
  · have : (ReverseChainExecutor.mk ch i).copy = ReverseChainExecutor.mk ch i := by
      simp [ReverseChainExecutor.copy, ReverseChainExecutor.make, h]
    rw [this]

theorem c3_copy_next_agrees_witness :
    ((0 : Int) ≠ -1) ∧
    ((∀ j : Int,
      (((ForwardChainExecutor.mk ({ name := "c", stages := [5] } : Chain Nat) j).copy).next).1 =
        ((ForwardChainExecutor.mk ({ name := "c", stages := [5] } : Chain Nat) j).next).1) ∧
    (((ReverseChainExecutor.mk ({ name := "c", stages := [5] } : Chain Nat) 0).copy).next).1 =
      ((ReverseChainExecutor.mk ({ name := "c", stages := [5] } : Chain Nat) 0).next).1) :=
  ⟨by decide, c3_copy_next_agrees Nat { name := "c", stages := [5] } 0 (by decide)⟩

/-- C7 counterexample: adding the same stage object twice breaks the
round-trip: in the chain built by `add_stage(s); add_stage(s)` the stage at
index 1 is `s`, but `get_stage_index` returns the first identical
occurrence, index 0. -/
theorem c7_counterexample :
    (buildChain "c" [5, 5]).get_stages 1 = some 5 ∧
    (buildChain "c" ([5, 5] : List Nat)).get_stage_index 5 = some 0 ∧
    (buildChain "c" ([5, 5] : List Nat)).get_stage_index 5 ≠ some 1 := by
  refine ⟨by decide, by decide, by decide⟩

/-- C7 amended: for every chain built by a sequence of `add_stage` calls
adding pairwise-distinct stage objects, looking up the index of the stage
stored at position `i` returns `i`. -/
theorem c7_get_stage_index_roundtrip (α : Type) [DecidableEq α] (name : String)
    (adds : List α) (hnd : adds.Nodup) (i : Nat) (hi : i < adds.length) :
    (buildChain name adds).get_stage_index (adds.get ⟨i, hi⟩) = some i := by
  unfold Chain.get_stage_index
  rw [buildChain_stages]
  simpa using findIndexFrom_nodup adds hnd i hi 0

theorem c7_get_stage_index_roundtrip_witness :
    ([3, 7, 9] : List Nat).Nodup ∧ (1 < ([3, 7, 9] : List Nat).length) ∧
    (buildChain "c" ([3, 7, 9] : List Nat)).get_stage_index
      (([3, 7, 9] : List Nat).get ⟨1, by decide⟩) = some 1 :=
  ⟨by decide, by decide, c7_get_stage_index_roundtrip Nat "c" [3, 7, 9] (by decide) 1 (by decide)⟩

theorem finalCharset_of_assembled_nil (g : GenerationConfig)
    (h : assembledCharset g = []) : finalCharset g = [] := by
  simp [finalCharset, h]

/-- C6 counterexample: with `custom_charset = "0"`, `exclude_ambiguous` on
and `length = 1`, the post-exclusion charset is empty, yet the generator
does not return the empty string: the emptiness check runs before the
exclusions, and drawing from the emptied charset fails (`secrets.choice`
raises `IndexError`, modelled as `none`). -/
theorem c6_counterexample :
    finalCharset { length := 1, custom_charset := some "0", exclude_ambiguous := true } = [] ∧
    generate_secret { length := 1, custom_charset := some "0", exclude_ambiguous := true }
      (fun _ => 0) = none ∧
    generate_secret { length := 1, custom_charset := some "0", exclude_ambiguous := true }
      (fun _ => 0) ≠ some "" := by
  refine ⟨by decide, by decide, by decide⟩

/-- C6 amended: the charset is `custom_charset` when set and non-empty,
else the union of the enabled class sets; the ambiguous, similar and
excluded characters are then removed.  The generator returns the empty
string when the PRE-exclusion charset is empty; when the exclusions empty a
non-empty charset (and `length ≥ 1`, as the config enforces) generation
fails instead of returning the empty string; otherwise the generated secret
has exactly `length` characters, each a member of the final charset. -/
theorem c6_generate_secret_spec (g : GenerationConfig) (choice : Nat → Nat) :
    (assembledCharset g = [] → generate_secret g choice = some "") ∧
    (assembledCharset g ≠ [] → finalCharset g = [] → 1 ≤ g.length →
      generate_secret g choice = none) ∧
    (finalCharset g ≠ [] → ∃ s, generate_secret g choice = some s ∧
      s.toList.length = g.length ∧ ∀ ch ∈ s.toList, ch ∈ finalCharset g) := by
  refine ⟨?_, ?_, ?_⟩
  · intro h
    simp [generate_secret, h]
  · intro h0 h1 hl
    have hlen : g.length ≠ 0 := by omega
    simp [generate_secret, h0, h1, hlen]
  · intro h
    have h0 : assembledCharset g ≠ [] := by
      intro ha
      exact h (finalCharset_of_assembled_nil g ha)
    refine ⟨String.mk ((List.range g.length).map fun i =>
        (finalCharset g).getD (choice i % (finalCharset g).length) 'A'),
      by simp [generate_secret, h0, h], ?_, ?_⟩
    · simp
    · intro ch hch
      simp only [String.toList, List.mem_map, List.mem_range] at hch
      obtain ⟨i, _, rfl⟩ := hch
      have hpos : 0 < (finalCharset g).length := List.length_pos.mpr h
      have hlt : choice i % (finalCharset g).length < (finalCharset g).length :=
        Nat.mod_lt _ hpos
      rw [List.getD_eq_getElem?_getD, List.getElem?_eq_getElem hlt, Option.getD_some]
      exact List.getElem_mem hlt

theorem c6_generate_secret_spec_witness :
    (finalCharset {} ≠ []) ∧
    ∃ s, generate_secret {} (fun _ => 0) = some s ∧
      s.toList.length = ({} : GenerationConfig).length ∧
      ∀ ch ∈ s.toList, ch ∈ finalCharset {} :=
  ⟨by decide, (c6_generate_secret_spec {} (fun _ => 0)).2.2 (by decide)⟩

/-- C8: a missing (or empty, hence falsy) `Authorization` header yields
401; a `Bearer <token>` header yields the part after the prefix; a bare
non-empty token is returned unchanged; an unregistered `{chain}` yields
404; and a registered chain with zero stages yields 404 from the
first-executor dependency. -/
theorem c8_gsecret_http_guards :
    get_token none = Except.error 401 ∧
    (∀ t : String, get_token (some ("Bearer " ++ t)) = Except.ok t) ∧
    (∀ s : String, s ≠ "" → pyStartsWith s "Bearer " = false →
      get_token (some s) = Except.ok s) ∧
    (∀ (ctrl : ChainController Nat) (name : String), alookup ctrl.chains name = none →
      get_chain_executor ctrl name = Except.error 404) ∧
    (∀ (ctrl : ChainController Nat) (name : String) (c : Chain Nat),
      alookup ctrl.chains name = some c → c.stages = [] →
      ∃ e, get_chain_executor ctrl name = Except.ok e ∧
        get_first_executor e = Except.error 404) := by
  refine ⟨rfl, ?_, ?_, ?_, ?_⟩
  · intro t
    have hne : ("Bearer " ++ t) ≠ "" := by
      intro h
      have : ("Bearer " ++ t).data = "".data := by rw [h]
      rw [String.data_append] at this
      simp at this
    have hpre : pyStartsWith ("Bearer " ++ t) "Bearer " = true := by
      unfold pyStartsWith
      rw [List.isPrefixOf_iff_prefix]
      show "Bearer ".data <+: ("Bearer " ++ t).data
      rw [String.data_append]
      exact List.prefix_append _ _
    have hdrop : pyDrop ("Bearer " ++ t) 7 = t := by
      unfold pyDrop
      show String.mk (("Bearer " ++ t).data.drop 7) = t
      rw [String.data_append]
      have h7 : "Bearer ".data.length = 7 := by decide
      rw [← h7, List.drop_left]
    simp [get_token, hne, hpre, hdrop]
  · intro s hs hpre
    simp [get_token, hs, hpre]
  · intro ctrl name hnone
    simp [get_chain_executor, ChainController.get_executor, hnone]
  · intro ctrl name c hsome hstages
    refine ⟨⟨c, 0⟩, ?_, ?_⟩
    · simp [get_chain_executor, ChainController.get_executor, hsome]
    · simp [get_first_executor, ForwardChainExecutor.next, hstages]

theorem c8_gsecret_http_guards_witness :
    get_token (some "Bearer abc") = Except.ok "abc" ∧
    get_token (some "rawtoken") = Except.ok "rawtoken" ∧
    get_chain_executor ({ stage_class := 0, chains := [] } : ChainController Nat) "c" =
      Except.error 404 ∧
    (∃ e, get_chain_executor
        ({ stage_class := 0, chains := [("c", { name := "c", stages := [] })] } :
          ChainController Nat) "c" = Except.ok e ∧
      get_first_executor e = Except.error 404) := by
  have h := c8_gsecret_http_guards
  refine ⟨?_, ?_, ?_, ?_⟩
  · have := h.2.1 "abc"
    simpa using this
  · exact h.2.2.1 "rawtoken" (by decide) (by decide)
  · exact h.2.2.2.1 { stage_class := 0, chains := [] } "c" (by simp [alookup])
  · exact h.2.2.2.2 _ "c" { name := "c", stages := [] } (by simp [alookup]) rfl

/-- C9: a live cache hit through `get_by_id` (resp. `get_by_key`) returns
the cached secret and mutates only the hit entry's `access_count` and
`last_accessed`; its `secret` and `cached_at` are preserved, the other
entries of that mapping are untouched, and the opposite mapping is
unchanged — so reads never extend an entry's TTL deadline. -/
theorem c9_cache_hit_frame :
    (∀ (c : TokenCache) (i : String) (ttl : Int) (now : Nat) (e : CacheEntry),
      alookup c.id_cache i = some e → e.expired ttl now = false →
      (c.get_by_id i ttl now).2 = some e.secret ∧
      (c.get_by_id i ttl now).1.key_cache = c.key_cache ∧
      alookup (c.get_by_id i ttl now).1.id_cache i =
        some { e with access_count := e.access_count + 1, last_accessed := now } ∧
      ∀ j, j ≠ i → alookup (c.get_by_id i ttl now).1.id_cache j = alookup c.id_cache j) ∧
    (∀ (c : TokenCache) (k : String) (ttl : Int) (now : Nat) (e : CacheEntry),
      alookup c.key_cache k = some e → e.expired ttl now = false →
      (c.get_by_key k ttl now).2 = some e.secret ∧
      (c.get_by_key k ttl now).1.id_cache = c.id_cache ∧
      alookup (c.get_by_key k ttl now).1.key_cache k =
        some { e with access_count := e.access_count + 1, last_accessed := now } ∧
      ∀ j, j ≠ k → alookup (c.get_by_key k ttl now).1.key_cache j = alookup c.key_cache j) := by
  constructor
  · intro c i ttl now e he hex
    refine ⟨?_, ?_, ?_, ?_⟩ <;>
      simp [TokenCache.get_by_id, he, hex, alookup_aupdate, CacheEntry.access]
    intro j hj
    simp [TokenCache.get_by_id, he, hex, alookup_aupdate, hj]
  · intro c k ttl now e he hex
    refine ⟨?_, ?_, ?_, ?_⟩ <;>
      simp [TokenCache.get_by_key, he, hex, alookup_aupdate, CacheEntry.access]
    intro j hj
    simp [TokenCache.get_by_key, he, hex, alookup_aupdate, hj]

theorem c9_cache_hit_frame_witness :
    (alookup [("i", CacheEntry.init { key_id := "i", key := "k", secret := "v" } 0)] "i" =
      some (CacheEntry.init { key_id := "i", key := "k", secret := "v" } 0)) ∧
    ((CacheEntry.init { key_id := "i", key := "k", secret := "v" } 0).expired 300 5 = false) ∧
    ((TokenCache.mk [("i", CacheEntry.init { key_id := "i", key := "k", secret := "v" } 0)]
        []).get_by_id "i" 300 5).2 =
      some ({ key_id := "i", key := "k", secret := "v" } : Secret) := by
  refine ⟨by decide, by decide, ?_⟩
  have h := (c9_cache_hit_frame).1
    (TokenCache.mk [("i", CacheEntry.init { key_id := "i", key := "k", secret := "v" } 0)] [])
    "i" 300 5 (CacheEntry.init { key_id := "i", key := "k", secret := "v" } 0)
    (by decide) (by decide)
  exact h.1

/-- C10: `add_chain` fails exactly when the argument is not a `Chain` or
its `stage_class` does not conform to the controller's; a conformant chain
is always stored under its name — replacing any previous binding — and a
subsequent `get_executor` for that name returns a fresh forward executor at
index 0 over the newly added chain. -/
theorem c10_add_chain_spec (α : Type) (sub : Nat → Nat → Bool)
    (ctrl : ChainController α) :
    (∃ m, ChainController.add_chain sub ctrl ChainArg.notChain = Except.error m) ∧
    (∀ c : Chain α, sub c.stage_class ctrl.stage_class = false →
      ∃ m, ChainController.add_chain sub ctrl (ChainArg.chain c) = Except.error m) ∧
    (∀ c : Chain α, sub c.stage_class ctrl.stage_class = true →
      ∃ ctrl', ChainController.add_chain sub ctrl (ChainArg.chain c) = Except.ok ctrl' ∧
        ChainController.get_executor ctrl' c.name =
          some (ForwardChainExecutor.mk c 0)) := by
  refine ⟨⟨_, rfl⟩, ?_, ?_⟩
  · intro c hsub
    exact ⟨"Chain's state_class must be a subclass of the executor_class.",
      by simp [ChainController.add_chain, hsub]⟩
  · intro c hsub
    refine ⟨{ ctrl with chains := ainsert ctrl.chains c.name c },
      by simp [ChainController.add_chain, hsub], ?_⟩
    simp [ChainController.get_executor, alookup_ainsert]

theorem c10_add_chain_spec_witness :
    ((fun _ _ => true) 1 0 = false → False) ∧
    ∃ ctrl', ChainController.add_chain (fun _ _ => true)
        ({ stage_class := 0, chains := [("c", { name := "c", stages := [9] })] } :
          ChainController Nat)
        (ChainArg.chain { name := "c", stage_class := 1, stages := [7] }) =
        Except.ok ctrl' ∧
      ChainController.get_executor ctrl' "c" =
        some (ForwardChainExecutor.mk { name := "c", stage_class := 1, stages := [7] } 0) := by
  constructor
  · intro h
    simp at h
  · exact (c10_add_chain_spec Nat (fun _ _ => true)
      { stage_class := 0, chains := [("c", { name := "c", stages := [9] })] }).2.2
      { name := "c", stage_class := 1, stages := [7] } rfl

/-- C4 counterexample: a single `update_by_id` (storing a secret under its
own id, exactly as the cache stage does) leaves the secret's key absent
from the key mapping, so the two mappings are not bi-consistent. -/
theorem c4_counterexample :
    ¬ BiConsistent (runCacheOps
      [CacheOp.updById { key_id := "i", key := "k", secret := "v" } 0]
      TokenCache.empty) := by
  intro h
  obtain ⟨e', he', -⟩ :=
    h "i" (CacheEntry.init { key_id := "i", key := "k", secret := "v" } 0) (by rfl)
  have hkc : (runCacheOps
      [CacheOp.updById { key_id := "i", key := "k", secret := "v" } 0]
      TokenCache.empty).key_cache = [] := rfl
  rw [hkc] at he'
  simp [alookup] at he'

/-- C4 amended: bi-consistency between the two mappings does not hold (an
update through one mapping does not touch the other); what every sequence
of cache operations preserves, starting from the empty cache, is per-mapping
self-consistency: each id-mapping entry is stored under its secret's
`key_id` and each key-mapping entry under its secret's `key` (update
operations storing a secret under its own id/key, as at every call site of
the cache stage). -/
theorem c4_cache_self_consistent (ops : List CacheOp) :
    SelfConsistent (runCacheOps ops TokenCache.empty) := by
  have hgen : ∀ (l : List CacheOp) (c : TokenCache), SelfConsistent c →
      SelfConsistent (runCacheOps l c) := by
    intro l
    induction l with
    | nil => intro c h; exact h
    | cons op rest ih =>
      intro c h
      exact ih _ (sc_applyCacheOp c op h)
  exact hgen ops TokenCache.empty sc_empty

/-- C5 counterexample: prime the cache with `{key_id=i1, key=k}`, then
deliver the batch `[{key_id=i2, key=k}]` (same key under a new id).  The
batch entry is upserted into both mappings, but the stale-id pass
invalidates `i1`, whose cached secret still carries key `k`, and
`invalidate_by_id` also deletes the key-mapping entry for `k` — so after
the call the batch entry's key is absent from the key mapping, contrary to
the claim. -/
theorem c5_counterexample :
    alookup (cacheSecretUpdated
        (cacheSecretUpdated TokenCache.empty
          [{ key_id := "i1", key := "k", secret := "v1" }] 0 true).1
        [{ key_id := "i2", key := "k", secret := "v2" }] 1 true).1.key_cache "k" =
      none ∧
    alookup (cacheSecretUpdated
        (cacheSecretUpdated TokenCache.empty
          [{ key_id := "i1", key := "k", secret := "v1" }] 0 true).1
        [{ key_id := "i2", key := "k", secret := "v2" }] 1 true).1.id_cache "i2" =
      some (CacheEntry.init { key_id := "i2", key := "k", secret := "v2" } 1) := by
  constructor <;> rfl

/-- C5 amended: assuming the batch carries pairwise-distinct ids and
pairwise-distinct keys, and no previously cached secret at a non-batch id
carries a batch key (nor a previously cached secret at a non-batch key a
batch id) — without this proviso the stale-invalidation pass can
cascade-delete a batch entry, as the counterexample shows — after
`secret_updated`: every batch entry is present in both mappings (id mapping
under its `key_id`, key mapping under its `key`), every previously cached
id not among the batch ids and every previously cached key not among the
batch keys is absent, and the batch list is forwarded unchanged to the next
stage of the reverse chain. -/
theorem c5_secret_updated_reconciles (c : TokenCache) (b : List Secret) (now : Nat)
    (hIds : (b.map Secret.key_id).Nodup)
    (hKeys : (b.map Secret.key).Nodup)
    (hP : ∀ i e, i ∉ b.map Secret.key_id → alookup c.id_cache i = some e →
      e.secret.key ∉ b.map Secret.key)
    (hQ : ∀ k e, k ∉ b.map Secret.key → alookup c.key_cache k = some e →
      e.secret.key_id ∉ b.map Secret.key_id) :
    (∀ s ∈ b,
      (∃ e, alookup (cacheSecretUpdated c b now true).1.id_cache s.key_id = some e ∧
        e.secret = s) ∧
      (∃ e, alookup (cacheSecretUpdated c b now true).1.key_cache s.key = some e ∧
        e.secret = s)) ∧
    (∀ i e, alookup c.id_cache i = some e → i ∉ b.map Secret.key_id →
      alookup (cacheSecretUpdated c b now true).1.id_cache i = none) ∧
    (∀ k e, alookup c.key_cache k = some e → k ∉ b.map Secret.key →
      alookup (cacheSecretUpdated c b now true).1.key_cache k = none) ∧
    (cacheSecretUpdated c b now true).2 = some b := by
  have hr : (cacheSecretUpdated c b now true).1 = reconcileCache c b now := rfl
  have hc1P : ∀ i e, i ∉ b.map Secret.key_id →
      alookup (upsertAll c b now).id_cache i = some e →
      e.secret.key ∉ b.map Secret.key := by
    intro i e hi he
    have he' : alookup (b.foldl (upsertStep now) c).id_cache i = some e := he
    rw [fold_upsert_id_other b now c i hi] at he'
    exact hP i e hi he'
  have hc1Q : ∀ k e, k ∉ b.map Secret.key →
      alookup (upsertAll c b now).key_cache k = some e →
      e.secret.key_id ∉ b.map Secret.key_id := by
    intro k e hk he
    have he' : alookup (b.foldl (upsertStep now) c).key_cache k = some e := he
    rw [fold_upsert_key_other b now c k hk] at he'
    exact hQ k e hk he'
  have hsIds_not : ∀ i ∈ staleIdsOf (upsertAll c b now) b,
      i ∉ b.map Secret.key_id := by
    intro i hi
    exact of_decide_eq_true (List.mem_filter.mp hi).2
  have hsKeys_not : ∀ k ∈ staleKeysOf (upsertAll c b now) b,
      k ∉ b.map Secret.key := by
    intro k hk
    exact of_decide_eq_true (List.mem_filter.mp hk).2
  refine ⟨?_, ?_, ?_, rfl⟩
  · intro s hs
    have hskid : s.key_id ∈ b.map Secret.key_id := List.mem_map.mpr ⟨s, hs, rfl⟩
    have hskey : s.key ∈ b.map Secret.key := List.mem_map.mpr ⟨s, hs, rfl⟩
    constructor
    · obtain ⟨e, he, hsec⟩ := fold_upsert_id_batch now b c s hs hIds
      refine ⟨e, ?_, hsec⟩
      rw [hr]
      unfold reconcileCache
      have hQ2 := fold_invById_preserves_keymap_prop (b.map Secret.key_id)
        (b.map Secret.key) (staleIdsOf (upsertAll c b now) b)
        (upsertAll c b now) hc1Q
      have h3 := fold_invByKey_id_preserved (b.map Secret.key_id) (b.map Secret.key)
        (staleKeysOf (upsertAll c b now) b)
        ((staleIdsOf (upsertAll c b now) b).foldl TokenCache.invalidate_by_id
          (upsertAll c b now))
        hQ2 hsKeys_not s.key_id hskid
      have h2 := fold_invById_id_other (staleIdsOf (upsertAll c b now) b)
        (upsertAll c b now) s.key_id (fun hmem => hsIds_not _ hmem hskid)
      rw [h3, h2]
      exact he
    · obtain ⟨e, he, hsec⟩ := fold_upsert_key_batch now b c s hs hKeys
      refine ⟨e, ?_, hsec⟩
      rw [hr]
      unfold reconcileCache
      have h2 := fold_invById_key_preserved (b.map Secret.key_id) (b.map Secret.key)
        (staleIdsOf (upsertAll c b now) b) (upsertAll c b now)
        hc1P hsIds_not s.key hskey
      have h3 := fold_invByKey_key_other (staleKeysOf (upsertAll c b now) b)
        ((staleIdsOf (upsertAll c b now) b).foldl TokenCache.invalidate_by_id
          (upsertAll c b now))
        s.key (fun hmem => hsKeys_not _ hmem hskey)
      rw [h3, h2]
      exact he
  · intro i e hie hib
    rw [hr]
    unfold reconcileCache
    apply fold_invByKey_id_none
    apply fold_invById_id_mem
    refine List.mem_filter.mpr ⟨?_, decide_eq_true hib⟩
    have h1 : alookup (upsertAll c b now).id_cache i = some e := by
      have h1' : alookup (b.foldl (upsertStep now) c).id_cache i =
          alookup c.id_cache i := fold_upsert_id_other b now c i hib
      exact h1'.trans hie
    exact alookup_some_mem_akeys h1
  · intro k e hke hkb
    rw [hr]
    unfold reconcileCache
    apply fold_invByKey_key_mem
    refine List.mem_filter.mpr ⟨?_, decide_eq_true hkb⟩
    have h1 : alookup (upsertAll c b now).key_cache k = some e := by
      have h1' : alookup (b.foldl (upsertStep now) c).key_cache k =
          alookup c.key_cache k := fold_upsert_key_other b now c k hkb
      exact h1'.trans hke
    exact alookup_some_mem_akeys h1

theorem c5_secret_updated_reconciles_witness :
    (([{ key_id := "i2", key := "k2", secret := "v2" }] :
        List Secret).map Secret.key_id).Nodup ∧
    (∃ e, alookup (cacheSecretUpdated
        (TokenCache.mk [("i1", CacheEntry.init { key_id := "i1", key := "k1", secret := "v1" } 0)]
          [("k1", CacheEntry.init { key_id := "i1", key := "k1", secret := "v1" } 0)])
        [{ key_id := "i2", key := "k2", secret := "v2" }] 1 true).1.key_cache "k2" =
        some e ∧ e.secret = { key_id := "i2", key := "k2", secret := "v2" }) ∧
    alookup (cacheSecretUpdated
        (TokenCache.mk [("i1", CacheEntry.init { key_id := "i1", key := "k1", secret := "v1" } 0)]
          [("k1", CacheEntry.init { key_id := "i1", key := "k1", secret := "v1" } 0)])
        [{ key_id := "i2", key := "k2", secret := "v2" }] 1 true).1.id_cache "i1" =
      none := by
  have h := c5_secret_updated_reconciles
    (TokenCache.mk [("i1", CacheEntry.init { key_id := "i1", key := "k1", secret := "v1" } 0)]
      [("k1", CacheEntry.init { key_id := "i1", key := "k1", secret := "v1" } 0)])
    [{ key_id := "i2", key := "k2", secret := "v2" }] 1
    (by decide) (by decide)
    (by
      intro i e hi he
      simp only [alookup] at he
      by_cases h1 : "i1" = i
      · rw [if_pos h1] at he
        cases he
        decide
      · rw [if_neg h1] at he
        cases he)
    (by
      intro k e hk he
      simp only [alookup] at he
      by_cases h1 : "k1" = k
      · rw [if_pos h1] at he
        cases he
        decide
      · rw [if_neg h1] at he
        cases he)
  refine ⟨by decide, ?_, ?_⟩
  · exact ((h.1 { key_id := "i2", key := "k2", secret := "v2" }
      (List.mem_singleton.mpr rfl)).2)
  · exact h.2.1 "i1" (CacheEntry.init { key_id := "i1", key := "k1", secret := "v1" } 0)
      (by decide) (by decide)

end MirrorKey
